import Mathlib

/-!
Verification of the human-behavior simulation and session-pacing engine
(`human_simulator.py`) of the ganenblue-py repository.

The Python code is shallowly embedded over the rationals. Floating-point
values are modelled as exact rationals; every random draw of the source
(`random.uniform`, `random.random`, `random.randint`, `np.random.normal`)
is passed in explicitly:
  - a uniform draw `random.uniform(a, b)` is modelled as `a + (b - a) * u`
    with a parameter `u` ranging over `[0, 1]`;
  - `random.random()` is a parameter in `[0, 1)`;
  - `random.randint(a, b)` is a natural-number parameter constrained by
    hypotheses `a <= steps` and `steps <= b`;
  - a normal draw `np.random.normal(mu, sigma)` with `sigma >= 0` has
    unbounded support, so it is modelled as an unconstrained parameter
    (for `int(np.random.normal ...)` an unconstrained integer parameter);
    `np.random.normal` with a negative scale raises a `ValueError`, which
    is modelled as an explicit error result.
`time.time()` is passed in as an explicit `now` parameter.
-/

/-- `np.clip(x, lo, hi)`, which numpy documents as
`np.minimum(a_max, np.maximum(a, a_min))`: with inverted bounds
(`lo > hi`) it returns `hi`. -/
def np_clip {α : Type} [LinearOrder α] (x lo hi : α) : α :=
  min hi (max lo x)

/-- The `SAFETY_CONFIG` dictionary of `config/settings.py` (the fields the
timing engine reads, all overridable through the environment). -/
structure SafetyConfig where
  MAX_SESSION_DURATION : ℚ
  MIN_BREAK_DURATION : ℚ
  BREAK_FREQUENCY : ℚ
  MIN_CLICK_DELAY : ℚ
  MAX_CLICK_DELAY : ℚ
  RANDOM_VARIANCE : ℚ
  ENABLE_FATIGUE : Bool
deriving Repr, DecidableEq

/-- The default values of `SAFETY_CONFIG` in `config/settings.py`. -/
def defaultConfig : SafetyConfig :=
  { MAX_SESSION_DURATION := 14400
    MIN_BREAK_DURATION := 600
    BREAK_FREQUENCY := 3600
    MIN_CLICK_DELAY := 0.5
    MAX_CLICK_DELAY := 2.0
    RANDOM_VARIANCE := 0.3
    ENABLE_FATIGUE := true }

namespace HumanBehavior

/-- The observable effects of one call to `HumanBehavior.human_delay`:
the Python function returns `None` (so `returned` is the value handed back
to the caller, if any), passes a duration in seconds to `time.sleep`
(recorded in `slept`), or propagates an exception (recorded in `error`). -/
structure HumanDelayResult where
  returned : Option ℚ
  slept : Option ℚ
  error : Option String
deriving Repr, DecidableEq

/-- `HumanBehavior.human_delay(min_ms, max_ms, distribution)`
(src/human_simulator.py lines 20-39).

`z` models the standard-normal draw behind `np.random.normal(mean, std_dev)`
(the sample is `mean + std_dev * z`; numpy raises
`ValueError: scale < 0` when `std_dev < 0`), and `u` models the
`random.uniform(min_ms, max_ms)` draw, `u` ranging over `[0, 1]`.
The function sleeps `delay_ms / 1000` seconds and returns `None`. -/
def human_delay (min_ms max_ms : ℚ) (distribution : String) (z u : ℚ) :
    HumanDelayResult :=
  if distribution = "normal" then
    let mean := (min_ms + max_ms) / 2
    let std_dev := (max_ms - min_ms) / 6
    if std_dev < 0 then
      { returned := none, slept := none, error := some "ValueError: scale < 0" }
    else
      let delay_ms := np_clip (mean + std_dev * z) min_ms max_ms
      { returned := none, slept := some (delay_ms / 1000), error := none }
  else
    let delay_ms := min_ms + (max_ms - min_ms) * u
    { returned := none, slept := some (delay_ms / 1000), error := none }

/-- The click-offset computation of `HumanBehavior.human_click`
(src/human_simulator.py lines 57-69).

`width`, `height` are `element.size`; `zx` and `zy` model
`int(np.random.normal(0, max_offset_x / 2))` and
`int(np.random.normal(0, max_offset_y / 2))`, each an arbitrary integer
(the normal distribution has unbounded support whenever its scale is
positive). Python floor division `//` is `Int.fdiv`, and `-w//2` parses
as `(-w)//2` because unary minus binds tighter than `//`. -/
def human_click_offset (width height : ℕ) (variance : ℕ) (zx zy : ℤ) :
    ℤ × ℤ :=
  let max_offset_x : ℤ := min (variance : ℤ) (Int.fdiv (width : ℤ) 3)
  let max_offset_y : ℤ := min (variance : ℤ) (Int.fdiv (height : ℤ) 3)
  let offset_x := zx
  let offset_y := zy
  let offset_x := np_clip offset_x (Int.fdiv (-(width : ℤ)) 2 + 5)
      (Int.fdiv (width : ℤ) 2 - 5)
  let offset_y := np_clip offset_y (Int.fdiv (-(height : ℤ)) 2 + 5)
      (Int.fdiv (height : ℤ) 2 - 5)
  (offset_x, offset_y)

/-- The scroll plan of `HumanBehavior.human_scroll`
(src/human_simulator.py lines 104-120): the list of per-step pixel deltas
handed to `scrollBy`. `steps` models `random.randint(2, 5)`. Every step
scrolls `scroll_amount // steps` (Python floor division, `Int.fdiv`);
there is no reconciliation step. -/
def human_scroll_plan (amount : ℤ) (direction : String) (steps : ℕ) :
    List ℤ :=
  let scroll_amount : ℤ := if direction = "down" then amount else -amount
  let scroll_per_step := Int.fdiv scroll_amount (steps : ℤ)
  List.replicate steps scroll_per_step

end HumanBehavior

/-- One entry of `TimingVariation.action_history`
(src/human_simulator.py lines 228-232). -/
structure ActionRecord where
  time : ℚ
  type : String
  delay : ℚ
deriving Repr, DecidableEq

/-- The session state owned by a `TimingVariation` instance
(src/human_simulator.py lines 187-191); `__init__` sets
`start_time = last_break_time = time.time()`, `action_count = 0`,
`action_history = []`. -/
structure TimingVariation where
  start_time : ℚ
  action_count : ℕ
  last_break_time : ℚ
  action_history : List ActionRecord
deriving Repr, DecidableEq

namespace TimingVariation

/-- The state produced by `TimingVariation.__init__` at time `t0`. -/
def init (t0 : ℚ) : TimingVariation :=
  { start_time := t0, action_count := 0, last_break_time := t0
    action_history := [] }

/-- `TimingVariation._calculate_fatigue` (src/human_simulator.py lines
242-264), a read-only computation over the current time and state. -/
def calculate_fatigue (cfg : SafetyConfig) (now : ℚ) (tv : TimingVariation) :
    ℚ :=
  if !cfg.ENABLE_FATIGUE then 1.0
  else
    let session_duration := now - tv.start_time
    let hours := session_duration / 3600
    let fatigue := min 1.25 (1.0 + hours * 0.05)
    if tv.action_count > 500 then
      let action_fatigue := 1.0 + (((tv.action_count : ℚ) - 500) / 10000)
      fatigue * min 1.1 action_fatigue
    else
      fatigue

/-- The delay-range table of `TimingVariation.get_delay`
(src/human_simulator.py lines 204-213): `delay_ranges.get(action_type,
(0.3, 0.8))`. -/
def delay_ranges (cfg : SafetyConfig) (action_type : String) : ℚ × ℚ :=
  if action_type = "click" then (cfg.MIN_CLICK_DELAY, cfg.MAX_CLICK_DELAY)
  else if action_type = "battle" then (0.3, 0.8)
  else if action_type = "reading" then (1.0, 3.0)
  else if action_type = "summon" then (0.5, 1.5)
  else if action_type = "results" then (0.8, 2.0)
  else if action_type = "navigation" then (0.4, 1.0)
  else (0.3, 0.8)

/-- `TimingVariation.get_delay` (src/human_simulator.py lines 193-240).
`u1` models the `random.uniform(min_delay, max_delay)` draw and `u2` the
`random.uniform(1 - variance, 1 + variance)` draw, both ranging over
`[0, 1]`. Returns the computed delay together with the mutated state:
`action_count` incremented, the record appended, and the oldest history
entry popped when the length exceeds 100. -/
def get_delay (cfg : SafetyConfig) (now : ℚ) (u1 u2 : ℚ)
    (action_type : String) (tv : TimingVariation) : ℚ × TimingVariation :=
  let mm := delay_ranges cfg action_type
  let min_delay := mm.1
  let max_delay := mm.2
  let fatigue := calculate_fatigue cfg now tv
  let variance := cfg.RANDOM_VARIANCE
  let base_delay := min_delay + (max_delay - min_delay) * u1
  let delay_with_fatigue := base_delay * fatigue
  let final_delay :=
    delay_with_fatigue * ((1 - variance) + ((1 + variance) - (1 - variance)) * u2)
  let history1 := tv.action_history ++
    [{ time := now, type := action_type, delay := final_delay }]
  let action_history := if history1.length > 100 then history1.tail else history1
  (final_delay,
    { tv with action_count := tv.action_count + 1
              action_history := action_history })

/-- `TimingVariation._get_break_duration` (src/human_simulator.py lines
297-311). The source samples all four `random.uniform` draws when building
the dictionary and then looks up `break_type` with default 600; `u_micro`,
`u_short`, `u_scheduled`, `u_long` model the four draws, each ranging over
`[0, 1]`. -/
def get_break_duration (u_micro u_short u_scheduled u_long : ℚ)
    (break_type : String) : ℚ :=
  if break_type = "micro" then 30 + (120 - 30) * u_micro
  else if break_type = "short" then 300 + (600 - 300) * u_short
  else if break_type = "scheduled" then 600 + (1200 - 600) * u_scheduled
  else if break_type = "long" then 1800 + (3600 - 1800) * u_long
  else 600

/-- `TimingVariation.should_take_break` (src/human_simulator.py lines
266-295). `micro_draw` models `random.random()` (in `[0, 1)`); the four
`u` parameters model the `random.uniform` draws of
`_get_break_duration`. The method assigns no attribute of `self`, so the
embedded state transformer returns the state unchanged. -/
def should_take_break (cfg : SafetyConfig) (now micro_draw : ℚ)
    (u_micro u_short u_scheduled u_long : ℚ) (tv : TimingVariation) :
    (Bool × ℚ) × TimingVariation :=
  let time_since_break := now - tv.last_break_time
  if time_since_break ≥ cfg.BREAK_FREQUENCY then
    ((true, get_break_duration u_micro u_short u_scheduled u_long "scheduled"),
      tv)
  else if micro_draw < 0.001 then
    ((true, get_break_duration u_micro u_short u_scheduled u_long "micro"), tv)
  else if now - tv.start_time ≥ cfg.MAX_SESSION_DURATION then
    ((true, get_break_duration u_micro u_short u_scheduled u_long "long"), tv)
  else
    ((false, 0), tv)

/-- Iterating `get_delay` over a list of per-call inputs
`(now, u1, u2, action_type)`, threading the state. -/
def run_get_delay (cfg : SafetyConfig)
    (inputs : List (ℚ × ℚ × ℚ × String)) (tv : TimingVariation) :
    TimingVariation :=
  match inputs with
  | [] => tv
  | (now, u1, u2, a) :: rest =>
      run_get_delay cfg rest (get_delay cfg now u1 u2 a tv).2

/-- The full chronological log of the records that the same sequence of
`get_delay` calls appends, without the 100-entry eviction: a specification
device used to say which records `action_history` retains. -/
def full_log (cfg : SafetyConfig)
    (inputs : List (ℚ × ℚ × ℚ × String)) (tv : TimingVariation) :
    List ActionRecord :=
  match inputs with
  | [] => []
  | (now, u1, u2, a) :: rest =>
      { time := now, type := a, delay := (get_delay cfg now u1 u2 a tv).1 } ::
        full_log cfg rest (get_delay cfg now u1 u2 a tv).2

end TimingVariation

namespace TimingVariation

/-! Decomposition of `_calculate_fatigue` into its two factors, proved
equal to the embedded function below. -/

/-- The time factor of `_calculate_fatigue`:
`min(1.25, 1.0 + hours * 0.05)` (src/human_simulator.py line 257). -/
def fatigue_time_component (hours : ℚ) : ℚ :=
  min 1.25 (1.0 + hours * 0.05)

/-- The action-count factor of `_calculate_fatigue`:
`min(1.1, 1.0 + (n - 500) / 10000)` when `n > 500`, else `1`
(src/human_simulator.py lines 260-262). -/
def fatigue_count_component (n : ℕ) : ℚ :=
  if n > 500 then min 1.1 (1.0 + (((n : ℚ) - 500) / 10000)) else 1

lemma calculate_fatigue_eq (cfg : SafetyConfig) (now : ℚ)
    (tv : TimingVariation) (h : cfg.ENABLE_FATIGUE = true) :
    calculate_fatigue cfg now tv
      = fatigue_time_component ((now - tv.start_time) / 3600)
          * fatigue_count_component tv.action_count := by
  simp only [calculate_fatigue, fatigue_time_component, fatigue_count_component,
    h, Bool.not_true, Bool.false_eq_true, if_false]
  split_ifs with h1
  · rfl
  · exact (mul_one _).symm

lemma calculate_fatigue_disabled (cfg : SafetyConfig) (now : ℚ)
    (tv : TimingVariation) (h : cfg.ENABLE_FATIGUE = false) :
    calculate_fatigue cfg now tv = 1 := by
  simp only [calculate_fatigue, h, Bool.not_false, if_true]
  norm_num

lemma one_le_fatigue_time_component {h : ℚ} (hh : 0 ≤ h) :
    1 ≤ fatigue_time_component h := by
  unfold fatigue_time_component
  rw [le_min_iff]
  constructor
  · norm_num
  · nlinarith

lemma fatigue_time_component_le (h : ℚ) :
    fatigue_time_component h ≤ 1.25 := min_le_left _ _

lemma one_le_fatigue_count_component (n : ℕ) :
    1 ≤ fatigue_count_component n := by
  unfold fatigue_count_component
  split_ifs with h1
  · rw [le_min_iff]
    constructor
    · norm_num
    · have h2 : (500 : ℚ) < n := by exact_mod_cast h1
      nlinarith
  · exact le_refl 1

lemma fatigue_count_component_le (n : ℕ) :
    fatigue_count_component n ≤ 1.1 := by
  unfold fatigue_count_component
  split_ifs with h1
  · exact min_le_left _ _
  · norm_num

lemma fatigue_count_component_mono : Monotone fatigue_count_component := by
  intro n m hnm
  unfold fatigue_count_component
  split_ifs with h1 h2 h2
  · apply min_le_min le_rfl
    have h3 : (n : ℚ) ≤ m := by exact_mod_cast hnm
    linarith
  · omega
  · rw [le_min_iff]
    constructor
    · norm_num
    · have h3 : (500 : ℚ) < m := by exact_mod_cast h2
      nlinarith
  · exact le_refl 1

lemma one_le_calculate_fatigue (cfg : SafetyConfig) (now : ℚ)
    (tv : TimingVariation) (h : tv.start_time ≤ now) :
    1 ≤ calculate_fatigue cfg now tv := by
  cases he : cfg.ENABLE_FATIGUE with
  | false => rw [calculate_fatigue_disabled cfg now tv he]
  | true =>
    rw [calculate_fatigue_eq cfg now tv he]
    have h0 : (0 : ℚ) ≤ (now - tv.start_time) / 3600 := by
      have := sub_nonneg.mpr h
      positivity
    have h1 := one_le_fatigue_time_component h0
    have h2 := one_le_fatigue_count_component tv.action_count
    nlinarith

lemma calculate_fatigue_le (cfg : SafetyConfig) (now : ℚ)
    (tv : TimingVariation) (h : tv.start_time ≤ now) :
    calculate_fatigue cfg now tv ≤ 1.375 := by
  cases he : cfg.ENABLE_FATIGUE with
  | false =>
    rw [calculate_fatigue_disabled cfg now tv he]
    norm_num
  | true =>
    rw [calculate_fatigue_eq cfg now tv he]
    have h0 : (0 : ℚ) ≤ (now - tv.start_time) / 3600 := by
      have := sub_nonneg.mpr h
      positivity
    have h1 := one_le_fatigue_time_component h0
    have h2 := fatigue_time_component_le ((now - tv.start_time) / 3600)
    have h3 := one_le_fatigue_count_component tv.action_count
    have h4 := fatigue_count_component_le tv.action_count
    nlinarith

end TimingVariation

open HumanBehavior TimingVariation

/-- Claim C5: the fatigue multiplier is a pure function of elapsed time and
action count: with fatigue enabled it is the product of a time component
`min(1.25, 1.0 + 0.05 * t_hours)` (exactly 1.0 at zero hours, exactly 1.25
from 5 hours on, linear in between, with value 1.10 at 2 hours) and a
count component `min(1.1, 1.0 + (n - 500)/10000)` for `n > 500` and 1.0
otherwise; the combined multiplier lies in `[1.0, 1.375]`; and it is
identically 1.0 when fatigue is disabled by configuration. -/
theorem claim_C5 (cfg : SafetyConfig) (now : ℚ) (tv : TimingVariation)
    (hen : cfg.ENABLE_FATIGUE = true) (h : tv.start_time ≤ now) :
    calculate_fatigue cfg now tv
      = fatigue_time_component ((now - tv.start_time) / 3600)
          * fatigue_count_component tv.action_count
    ∧ fatigue_time_component 0 = 1
    ∧ (∀ t : ℚ, 5 ≤ t → fatigue_time_component t = 1.25)
    ∧ (∀ t : ℚ, 0 ≤ t → t ≤ 5 → fatigue_time_component t = 1.0 + t * 0.05)
    ∧ fatigue_time_component 2 = 1.10
    ∧ (∀ n : ℕ, 500 < n →
        fatigue_count_component n = min 1.1 (1.0 + ((n : ℚ) - 500) / 10000))
    ∧ (∀ n : ℕ, n ≤ 500 → fatigue_count_component n = 1)
    ∧ 1 ≤ calculate_fatigue cfg now tv
    ∧ calculate_fatigue cfg now tv ≤ 1.375
    ∧ calculate_fatigue { cfg with ENABLE_FATIGUE := false } now tv = 1 := by
  refine ⟨calculate_fatigue_eq cfg now tv hen, ?_, ?_, ?_, ?_, ?_, ?_,
    one_le_calculate_fatigue cfg now tv h, calculate_fatigue_le cfg now tv h,
    calculate_fatigue_disabled _ now tv rfl⟩
  · unfold fatigue_time_component
    norm_num [min_def]
  · intro t ht
    unfold fatigue_time_component
    rw [min_eq_left (by nlinarith)]
  · intro t ht0 ht5
    unfold fatigue_time_component
    rw [min_eq_right (by nlinarith)]
  · unfold fatigue_time_component
    norm_num [min_def]
  · intro n hn
    unfold fatigue_count_component
    rw [if_pos hn]
  · intro n hn
    unfold fatigue_count_component
    rw [if_neg (by omega)]

/-- Witness for C5: the combined fatigue multiplier at construction time is
at least 1, obtained by applying `claim_C5` at the default configuration,
`now = 0` and a fresh session state. -/
theorem claim_C5_witness :
    1 ≤ calculate_fatigue defaultConfig 0 (TimingVariation.init 0) :=
  (claim_C5 defaultConfig 0 (TimingVariation.init 0) rfl
    le_rfl).2.2.2.2.2.2.2.1

/-- Claim C1 (amended): on each call, `get_delay` multiplies in the fatigue
computed from the PRE-increment action count (the count is incremented only
after the fatigue factor is read), and the fatigue multiplier is
monotonically non-decreasing in the action count (all else equal), so the
501st call still gets a multiplier greater than or equal to the 500th
call's. -/
theorem claim_C1_amended (cfg : SafetyConfig) (now u1 u2 : ℚ) (a : String)
    (tv : TimingVariation) (h : tv.start_time ≤ now) :
    (get_delay cfg now u1 u2 a tv).1
      = ((delay_ranges cfg a).1
            + ((delay_ranges cfg a).2 - (delay_ranges cfg a).1) * u1)
          * calculate_fatigue cfg now tv
          * ((1 - cfg.RANDOM_VARIANCE)
              + ((1 + cfg.RANDOM_VARIANCE) - (1 - cfg.RANDOM_VARIANCE)) * u2)
    ∧ (get_delay cfg now u1 u2 a tv).2.action_count = tv.action_count + 1
    ∧ ∀ m : ℕ, tv.action_count ≤ m →
        calculate_fatigue cfg now tv
          ≤ calculate_fatigue cfg now { tv with action_count := m } := by
  refine ⟨rfl, rfl, ?_⟩
  intro m hm
  cases he : cfg.ENABLE_FATIGUE with
  | false =>
    rw [calculate_fatigue_disabled _ _ _ he, calculate_fatigue_disabled _ _ _ he]
  | true =>
    rw [calculate_fatigue_eq _ _ _ he, calculate_fatigue_eq _ _ _ he]
    have h0 : (0 : ℚ) ≤ (now - tv.start_time) / 3600 := by
      have := sub_nonneg.mpr h
      positivity
    have h1 := one_le_fatigue_time_component h0
    exact mul_le_mul_of_nonneg_left (fatigue_count_component_mono hm)
      (by linarith)

/-- Witness for the amended C1: the fatigue multiplier seen by the 501st
call (pre-increment count 500) is at least the one seen by the 500th call
(pre-increment count 499), by applying `claim_C1_amended` at a concrete
state. -/
theorem claim_C1_amended_witness :
    calculate_fatigue defaultConfig 0 ⟨0, 499, 0, []⟩
      ≤ calculate_fatigue defaultConfig 0 ⟨0, 500, 0, []⟩ :=
  (claim_C1_amended defaultConfig 0 1 (1/2) "battle" ⟨0, 499, 0, []⟩
    le_rfl).2.2 500 (by norm_num)

/-- Claim C1 counterexample: on the call that takes `action_count` from 500
to 501 (the 501st call), `get_delay` multiplies in the fatigue computed from
the pre-increment count 500 (count component 1, multiplier 1), not from the
post-increment count 501 (multiplier 1.0001): at `now = 0`, `u1 = 1`,
`u2 = 1/2` the returned delay is `0.8 * 1`, which differs from
`0.8 * 1.0001`. -/
theorem claim_C1_counterexample :
    (get_delay defaultConfig 0 1 (1/2) "battle"
        ⟨0, 500, 0, []⟩).2.action_count = 501
    ∧ (get_delay defaultConfig 0 1 (1/2) "battle" ⟨0, 500, 0, []⟩).1
        = 0.8 * calculate_fatigue defaultConfig 0 ⟨0, 500, 0, []⟩
    ∧ calculate_fatigue defaultConfig 0 ⟨0, 500, 0, []⟩ = 1
    ∧ calculate_fatigue defaultConfig 0 ⟨0, 501, 0, []⟩ = 1.0001
    ∧ (get_delay defaultConfig 0 1 (1/2) "battle" ⟨0, 500, 0, []⟩).1
        ≠ 0.8 * calculate_fatigue defaultConfig 0 ⟨0, 501, 0, []⟩ := by
  refine ⟨rfl, ?_, ?_, ?_, ?_⟩
  · simp [get_delay, delay_ranges, calculate_fatigue, defaultConfig, min_def]
    norm_num
  · simp [calculate_fatigue, defaultConfig, min_def]
    norm_num
  · simp [calculate_fatigue, defaultConfig, min_def]
    norm_num
  · simp [get_delay, delay_ranges, calculate_fatigue, defaultConfig, min_def]
    norm_num

lemma get_break_duration_scheduled (um us usc ul : ℚ) :
    get_break_duration um us usc ul "scheduled" = 600 + (1200 - 600) * usc := by
  simp [get_break_duration]

lemma get_break_duration_micro (um us usc ul : ℚ) :
    get_break_duration um us usc ul "micro" = 30 + (120 - 30) * um := by
  simp [get_break_duration]

lemma get_break_duration_long (um us usc ul : ℚ) :
    get_break_duration um us usc ul "long" = 1800 + (3600 - 1800) * ul := by
  simp [get_break_duration]

/-- Claim C10: `should_take_break` leaves every field of the session state
unchanged: whatever trigger fires (or none), the post-call values of
`start_time`, `action_count`, `last_break_time` and `action_history` equal
their pre-call values. -/
theorem claim_C10 (cfg : SafetyConfig) (now micro_draw um us usc ul : ℚ)
    (tv : TimingVariation) :
    (should_take_break cfg now micro_draw um us usc ul tv).2 = tv
    ∧ (should_take_break cfg now micro_draw um us usc ul tv).2.start_time
        = tv.start_time
    ∧ (should_take_break cfg now micro_draw um us usc ul tv).2.action_count
        = tv.action_count
    ∧ (should_take_break cfg now micro_draw um us usc ul tv).2.last_break_time
        = tv.last_break_time
    ∧ (should_take_break cfg now micro_draw um us usc ul tv).2.action_history
        = tv.action_history := by
  have h : (should_take_break cfg now micro_draw um us usc ul tv).2 = tv := by
    show (if now - tv.last_break_time ≥ cfg.BREAK_FREQUENCY then
        ((true, get_break_duration um us usc ul "scheduled"), tv)
      else if micro_draw < 0.001 then
        ((true, get_break_duration um us usc ul "micro"), tv)
      else if now - tv.start_time ≥ cfg.MAX_SESSION_DURATION then
        ((true, get_break_duration um us usc ul "long"), tv)
      else ((false, 0), tv)).2 = tv
    split_ifs <;> rfl
  exact ⟨h, by rw [h], by rw [h], by rw [h], by rw [h]⟩

/-- Claim C4: `should_take_break` evaluates its three triggers in the fixed
order scheduled break (time since last break at least `BREAK_FREQUENCY`,
duration uniform in [600, 1200] s), then micro-break (draw below 0.001,
duration uniform in [30, 120] s), then session cap (elapsed at least
`MAX_SESSION_DURATION`, duration uniform in [1800, 3600] s), returning on
the first that fires; a session that has simultaneously exceeded both the
break frequency and the session cap reports the scheduled break; when no
trigger fires the result is `(false, 0)`. -/
theorem claim_C4 (cfg : SafetyConfig) (now micro_draw um us usc ul : ℚ)
    (tv : TimingVariation)
    (hum0 : 0 ≤ um) (hum1 : um ≤ 1)
    (husc0 : 0 ≤ usc) (husc1 : usc ≤ 1)
    (hul0 : 0 ≤ ul) (hul1 : ul ≤ 1) :
    (cfg.BREAK_FREQUENCY ≤ now - tv.last_break_time →
      (should_take_break cfg now micro_draw um us usc ul tv).1
          = (true, 600 + (1200 - 600) * usc)
      ∧ 600 ≤ (should_take_break cfg now micro_draw um us usc ul tv).1.2
      ∧ (should_take_break cfg now micro_draw um us usc ul tv).1.2 ≤ 1200)
    ∧ (now - tv.last_break_time < cfg.BREAK_FREQUENCY →
       micro_draw < 0.001 →
      (should_take_break cfg now micro_draw um us usc ul tv).1
          = (true, 30 + (120 - 30) * um)
      ∧ 30 ≤ (should_take_break cfg now micro_draw um us usc ul tv).1.2
      ∧ (should_take_break cfg now micro_draw um us usc ul tv).1.2 ≤ 120)
    ∧ (now - tv.last_break_time < cfg.BREAK_FREQUENCY →
       ¬ micro_draw < 0.001 →
       cfg.MAX_SESSION_DURATION ≤ now - tv.start_time →
      (should_take_break cfg now micro_draw um us usc ul tv).1
          = (true, 1800 + (3600 - 1800) * ul)
      ∧ 1800 ≤ (should_take_break cfg now micro_draw um us usc ul tv).1.2
      ∧ (should_take_break cfg now micro_draw um us usc ul tv).1.2 ≤ 3600)
    ∧ (cfg.BREAK_FREQUENCY ≤ now - tv.last_break_time →
       cfg.MAX_SESSION_DURATION ≤ now - tv.start_time →
      (should_take_break cfg now micro_draw um us usc ul tv).1
          = (true, 600 + (1200 - 600) * usc))
    ∧ (now - tv.last_break_time < cfg.BREAK_FREQUENCY →
       ¬ micro_draw < 0.001 →
       now - tv.start_time < cfg.MAX_SESSION_DURATION →
      (should_take_break cfg now micro_draw um us usc ul tv).1
          = (false, 0)) := by
  refine ⟨?_, ?_, ?_, ?_, ?_⟩
  · intro h1
    unfold should_take_break
    rw [if_pos (show now - tv.last_break_time ≥ cfg.BREAK_FREQUENCY from h1)]
    rw [get_break_duration_scheduled]
    exact ⟨rfl, by dsimp only; linarith, by dsimp only; linarith⟩
  · intro h1 h2
    unfold should_take_break
    rw [if_neg (show ¬ now - tv.last_break_time ≥ cfg.BREAK_FREQUENCY from
      not_le.mpr h1)]
    rw [if_pos h2, get_break_duration_micro]
    exact ⟨rfl, by dsimp only; linarith, by dsimp only; linarith⟩
  · intro h1 h2 h3
    unfold should_take_break
    rw [if_neg (show ¬ now - tv.last_break_time ≥ cfg.BREAK_FREQUENCY from
      not_le.mpr h1)]
    rw [if_neg h2]
    rw [if_pos (show now - tv.start_time ≥ cfg.MAX_SESSION_DURATION from h3)]
    rw [get_break_duration_long]
    exact ⟨rfl, by dsimp only; linarith, by dsimp only; linarith⟩
  · intro h1 _h3
    unfold should_take_break
    rw [if_pos (show now - tv.last_break_time ≥ cfg.BREAK_FREQUENCY from h1)]
    rw [get_break_duration_scheduled]
  · intro h1 h2 h3
    unfold should_take_break
    rw [if_neg (show ¬ now - tv.last_break_time ≥ cfg.BREAK_FREQUENCY from
      not_le.mpr h1)]
    rw [if_neg h2]
    rw [if_neg (show ¬ now - tv.start_time ≥ cfg.MAX_SESSION_DURATION from
      not_le.mpr h3)]

/-- Witness for C4: a session that has exceeded both the break frequency
(3600 s) and the session cap (14400 s) reports the scheduled break with
its minimal duration, by applying `claim_C4` at `now = 20000` to a fresh
session state. -/
theorem claim_C4_witness :
    (should_take_break defaultConfig 20000 (1/2) 0 0 0 0
        (TimingVariation.init 0)).1 = (true, 600 + (1200 - 600) * 0) :=
  (claim_C4 defaultConfig 20000 (1/2) 0 0 0 0 (TimingVariation.init 0)
    le_rfl zero_le_one le_rfl zero_le_one le_rfl zero_le_one).2.2.2.1
    (by norm_num [TimingVariation.init, defaultConfig])
    (by norm_num [TimingVariation.init, defaultConfig])

lemma delay_ranges_valid (cfg : SafetyConfig) (a : String)
    (hmin : 0 ≤ cfg.MIN_CLICK_DELAY)
    (hmm : cfg.MIN_CLICK_DELAY ≤ cfg.MAX_CLICK_DELAY) :
    0 ≤ (delay_ranges cfg a).1
      ∧ (delay_ranges cfg a).1 ≤ (delay_ranges cfg a).2 := by
  unfold delay_ranges
  split_ifs <;> constructor <;> first | assumption | norm_num

/-- Claim C7 counterexample: `get_delay` has no defensive floor at 0.
With click bounds configured to the (adversarial but representable)
values `MIN_CLICK_DELAY = -10`, `MAX_CLICK_DELAY = -5`, the very first
"click" delay of a fresh session at `u1 = 0`, `u2 = 1/2` (unit jitter) is
`-10`, a negative duration returned unchanged to the caller. -/
theorem claim_C7_counterexample :
    (get_delay
        { defaultConfig with MIN_CLICK_DELAY := -10, MAX_CLICK_DELAY := -5 }
        0 0 (1/2) "click" (TimingVariation.init 0)).1 = -10
    ∧ ((-10 : ℚ) < 0) := by
  constructor
  · simp [get_delay, delay_ranges, calculate_fatigue, defaultConfig,
      TimingVariation.init, min_def]
    norm_num
  · norm_num

/-- Claim C7 (amended): `get_delay` is total and, whenever the configured
click bounds are non-negative and ordered, the variance fraction lies in
`[0, 1]`, both uniform draws lie in `[0, 1]` and the clock has not run
backwards, it returns a non-negative delay for every action category
(known or unknown); the code has no floor at 0, so this fails for
configurations with negative click bounds (see the counterexample). -/
theorem claim_C7_amended (cfg : SafetyConfig) (now u1 u2 : ℚ) (a : String)
    (tv : TimingVariation)
    (hmin : 0 ≤ cfg.MIN_CLICK_DELAY)
    (hmm : cfg.MIN_CLICK_DELAY ≤ cfg.MAX_CLICK_DELAY)
    (hv0 : 0 ≤ cfg.RANDOM_VARIANCE) (hv1 : cfg.RANDOM_VARIANCE ≤ 1)
    (hu10 : 0 ≤ u1) (hu11 : u1 ≤ 1) (hu20 : 0 ≤ u2) (hu21 : u2 ≤ 1)
    (hnow : tv.start_time ≤ now) :
    0 ≤ (get_delay cfg now u1 u2 a tv).1 := by
  obtain ⟨hr0, hr1⟩ := delay_ranges_valid cfg a hmin hmm
  have hfst : (get_delay cfg now u1 u2 a tv).1
      = ((delay_ranges cfg a).1
            + ((delay_ranges cfg a).2 - (delay_ranges cfg a).1) * u1)
          * calculate_fatigue cfg now tv
          * ((1 - cfg.RANDOM_VARIANCE)
              + ((1 + cfg.RANDOM_VARIANCE) - (1 - cfg.RANDOM_VARIANCE)) * u2) :=
    rfl
  rw [hfst]
  have hbase : 0 ≤ (delay_ranges cfg a).1
      + ((delay_ranges cfg a).2 - (delay_ranges cfg a).1) * u1 := by
    have : 0 ≤ ((delay_ranges cfg a).2 - (delay_ranges cfg a).1) * u1 :=
      mul_nonneg (by linarith) hu10
    linarith
  have hfat : 0 ≤ calculate_fatigue cfg now tv := by
    have := one_le_calculate_fatigue cfg now tv hnow
    linarith
  have hjit : 0 ≤ (1 - cfg.RANDOM_VARIANCE)
      + ((1 + cfg.RANDOM_VARIANCE) - (1 - cfg.RANDOM_VARIANCE)) * u2 := by
    have : 0 ≤ ((1 + cfg.RANDOM_VARIANCE) - (1 - cfg.RANDOM_VARIANCE)) * u2 := by
      apply mul_nonneg (by linarith) hu20
    linarith
  exact mul_nonneg (mul_nonneg hbase hfat) hjit

/-- Witness for the amended C7: the first "click" delay of a fresh session
under the default configuration is non-negative, by applying
`claim_C7_amended` at concrete inputs. -/
theorem claim_C7_amended_witness :
    0 ≤ (get_delay defaultConfig 0 0 (1/2) "click"
        (TimingVariation.init 0)).1 :=
  claim_C7_amended defaultConfig 0 0 (1/2) "click" (TimingVariation.init 0)
    (by norm_num [defaultConfig]) (by norm_num [defaultConfig])
    (by norm_num [defaultConfig]) (by norm_num [defaultConfig])
    le_rfl zero_le_one (by norm_num) (by norm_num) le_rfl

/-- Claim C3 counterexample: `human_delay` with inverted bounds
(`min_ms = 500 > max_ms = 100`) and the `uniform` shape neither raises any
labeled condition nor clamps to zero: at the midpoint draw it silently
sleeps 0.3 seconds (the computed `delay_ms = 300`). -/
theorem claim_C3_counterexample :
    (100 : ℚ) < 500
    ∧ (human_delay 500 100 "uniform" 0 (1/2)).error = none
    ∧ (human_delay 500 100 "uniform" 0 (1/2)).returned = none
    ∧ (human_delay 500 100 "uniform" 0 (1/2)).slept = some (3/10)
    ∧ (3/10 : ℚ) ≠ 0 := by
  refine ⟨by norm_num, rfl, rfl, ?_, by norm_num⟩
  simp [human_delay]
  norm_num

/-- Claim C3 (amended): `human_delay` performs no bounds validation. With
inverted bounds (`max_ms < min_ms`) the `uniform` shape silently computes
`min_ms + (max_ms - min_ms) * u` — a value between the bounds — and sleeps
it; the `normal` shape propagates the unlabeled `ValueError` that
`np.random.normal` raises because the derived standard deviation
`(max_ms - min_ms)/6` is negative. No `InvalidParameter` condition and no
clamp to zero exist. -/
theorem claim_C3_amended (min_ms max_ms z u : ℚ) (h : max_ms < min_ms) :
    (human_delay min_ms max_ms "uniform" z u).error = none
    ∧ (human_delay min_ms max_ms "uniform" z u).slept
        = some ((min_ms + (max_ms - min_ms) * u) / 1000)
    ∧ (human_delay min_ms max_ms "normal" z u).error
        = some "ValueError: scale < 0"
    ∧ (human_delay min_ms max_ms "normal" z u).slept = none := by
  have hstd : (max_ms - min_ms) / 6 < 0 := by linarith
  refine ⟨rfl, rfl, ?_, ?_⟩ <;>
    · unfold human_delay
      rw [if_pos rfl, if_pos hstd]

/-- Witness for the amended C3: with bounds 500 and 100 the `normal` shape
surfaces the numpy scale error, by applying `claim_C3_amended` at concrete
inputs. -/
theorem claim_C3_amended_witness :
    (human_delay 500 100 "normal" 0 (1/2)).error
        = some "ValueError: scale < 0" :=
  (claim_C3_amended 500 100 0 (1/2) (by norm_num)).2.2.1

/-- Claim C9 counterexample: for perfectly valid bounds
(`min_ms = 100 ≤ max_ms = 500`) and the `normal` shape, `human_delay`
hands nothing back to the caller (the Python function returns `None`) and
instead sleeps the computed duration itself (0.3 seconds at the mean
draw). -/
theorem claim_C9_counterexample :
    (100 : ℚ) ≤ 500
    ∧ (human_delay 100 500 "normal" 0 0).returned = none
    ∧ (human_delay 100 500 "normal" 0 0).slept = some (3/10) := by
  refine ⟨by norm_num, ?_, ?_⟩ <;>
    · simp [human_delay, np_clip]
      norm_num [min_def, max_def]

/-- Claim C9 (amended): for valid bounds and the `normal` shape the
computed delay is the normal sample (mean the midpoint, standard deviation
`(max-min)/6`) clamped into `[min_ms, max_ms]`; but the function does not
hand it back: it returns `None` and itself sleeps `delay_ms / 1000`
seconds. -/
theorem claim_C9_amended (min_ms max_ms z u : ℚ) (h : min_ms ≤ max_ms) :
    (human_delay min_ms max_ms "normal" z u).returned = none
    ∧ (human_delay min_ms max_ms "normal" z u).error = none
    ∧ (human_delay min_ms max_ms "normal" z u).slept
        = some (np_clip ((min_ms + max_ms) / 2 + (max_ms - min_ms) / 6 * z)
            min_ms max_ms / 1000)
    ∧ min_ms ≤ np_clip ((min_ms + max_ms) / 2 + (max_ms - min_ms) / 6 * z)
        min_ms max_ms
    ∧ np_clip ((min_ms + max_ms) / 2 + (max_ms - min_ms) / 6 * z)
        min_ms max_ms ≤ max_ms := by
  have hstd : ¬ (max_ms - min_ms) / 6 < 0 := by
    push_neg
    have h6 : (0 : ℚ) ≤ max_ms - min_ms := by linarith
    positivity
  have hne : human_delay min_ms max_ms "normal" z u
      = { returned := none
          slept := some (np_clip ((min_ms + max_ms) / 2
              + (max_ms - min_ms) / 6 * z) min_ms max_ms / 1000)
          error := none } := by
    unfold human_delay
    rw [if_pos rfl, if_neg hstd]
  refine ⟨by rw [hne], by rw [hne], by rw [hne], ?_, ?_⟩
  · unfold np_clip
    exact le_min h (le_max_left _ _)
  · unfold np_clip
    exact min_le_left _ _

/-- Witness for the amended C9: at bounds 100 and 500 and the mean draw the
clamped delay is in bounds, by applying `claim_C9_amended` at concrete
inputs. -/
theorem claim_C9_amended_witness :
    (human_delay 100 500 "normal" 0 0).slept
        = some (np_clip ((100 + 500) / 2 + (500 - 100) / 6 * 0) 100 500
            / 1000) :=
  (claim_C9_amended 100 500 0 0 (by norm_num)).2.2.1

/-- Claim C2 counterexample: `human_scroll` does not reconcile integer
rounding: scrolling 100 px down in 3 steps (a step count inside {2,3,4,5})
produces deltas `[33, 33, 33]`, which sum to 99, not to the requested
100. -/
theorem claim_C2_counterexample :
    2 ≤ 3 ∧ 3 ≤ 5
    ∧ (human_scroll_plan 100 "down" 3).length = 3
    ∧ (human_scroll_plan 100 "down" 3).sum = 99
    ∧ (human_scroll_plan 100 "down" 3).sum ≠ 100 := by
  refine ⟨by norm_num, by norm_num, by decide, by decide, by decide⟩

/-- Claim C2 (amended): for every total and direction and every step count
in {2,3,4,5}, the scroll plan has exactly `steps` entries, each equal to
the floor quotient of the signed total (negative for any direction other
than "down") by the step count; the deltas therefore sum to
`steps * (signed_total // steps)`, which undershoots the signed total by
the remainder `signed_total mod steps` (between 0 and `steps - 1`) — there
is no last-step reconciliation. -/
theorem claim_C2_amended (amount : ℤ) (direction : String) (steps : ℕ)
    (h2 : 2 ≤ steps) (h5 : steps ≤ 5) :
    (human_scroll_plan amount direction steps).length = steps
    ∧ (∀ d ∈ human_scroll_plan amount direction steps,
        d = Int.fdiv (if direction = "down" then amount else -amount) steps)
    ∧ (human_scroll_plan amount direction steps).sum
        = steps * Int.fdiv (if direction = "down" then amount else -amount)
            steps
    ∧ 0 ≤ (if direction = "down" then amount else -amount)
        - (human_scroll_plan amount direction steps).sum
    ∧ (if direction = "down" then amount else -amount)
        - (human_scroll_plan amount direction steps).sum < steps := by
  have hpos : (0 : ℤ) < (steps : ℤ) := by
    have : 0 < steps := by omega
    exact_mod_cast this
  have hlen : (human_scroll_plan amount direction steps).length = steps := by
    simp [human_scroll_plan]
  have hmem : ∀ d ∈ human_scroll_plan amount direction steps,
      d = Int.fdiv (if direction = "down" then amount else -amount) steps := by
    intro d hd
    exact List.eq_of_mem_replicate hd
  have hsum : (human_scroll_plan amount direction steps).sum
      = steps * Int.fdiv (if direction = "down" then amount else -amount)
          steps := by
    simp [human_scroll_plan, List.sum_replicate, nsmul_eq_mul]
  have hfd : Int.fdiv (if direction = "down" then amount else -amount)
        (steps : ℤ)
      = (if direction = "down" then amount else -amount) / (steps : ℤ) :=
    Int.fdiv_eq_ediv _ (le_of_lt hpos)
  have hdm := Int.ediv_add_emod
    (if direction = "down" then amount else -amount) (steps : ℤ)
  have hm0 := Int.emod_nonneg
    (if direction = "down" then amount else -amount) (ne_of_gt hpos)
  have hm1 := Int.emod_lt_of_pos
    (if direction = "down" then amount else -amount) hpos
  refine ⟨hlen, hmem, hsum, ?_, ?_⟩
  · rw [hsum, hfd]
    linarith
  · rw [hsum, hfd]
    linarith

/-- Witness for the amended C2: a 100 px downward scroll in 3 steps plans
exactly 3 deltas, by applying `claim_C2_amended` at concrete inputs. -/
theorem claim_C2_amended_witness :
    (human_scroll_plan 100 "down" 3).length = 3 :=
  (claim_C2_amended 100 "down" 3 (by norm_num) (by norm_num)).1

/-- Claim C8 counterexample: for the 21 x 21 region (width and height at
least 20) with `max_variance = 10`, a far-negative draw is clipped to the
lower bound `-21 // 2 + 5 = -6` (Python floor division), whose magnitude 6
exceeds `21/2 - 5 = 5.5`; the click lands only 4.5 units from the left
edge, inside the 5-unit margin. -/
theorem claim_C8_counterexample :
    (20 : ℕ) ≤ 21 ∧ (0 : ℕ) ≤ 10
    ∧ (human_click_offset 21 21 10 (-100) 0).1 = -6
    ∧ ¬ (|(((human_click_offset 21 21 10 (-100) 0).1 : ℤ) : ℚ)|
          ≤ (21 : ℚ) / 2 - 5)
    ∧ (((human_click_offset 21 21 10 (-100) 0).1 : ℤ) : ℚ)
          - (-((21 : ℚ) / 2)) < 5 := by
  have h : (human_click_offset 21 21 10 (-100) 0).1 = -6 := by decide
  refine ⟨by norm_num, by norm_num, h, ?_, ?_⟩ <;> rw [h] <;> norm_num

lemma clip_axis_bounds (w : ℕ) (z : ℤ) (hw : 20 ≤ w) :
    Int.fdiv (-(w : ℤ)) 2 + 5
        ≤ np_clip z (Int.fdiv (-(w : ℤ)) 2 + 5) (Int.fdiv (w : ℤ) 2 - 5)
    ∧ np_clip z (Int.fdiv (-(w : ℤ)) 2 + 5) (Int.fdiv (w : ℤ) 2 - 5)
        ≤ Int.fdiv (w : ℤ) 2 - 5
    ∧ |((np_clip z (Int.fdiv (-(w : ℤ)) 2 + 5)
          (Int.fdiv (w : ℤ) 2 - 5) : ℤ) : ℚ)| ≤ ((w : ℚ) + 1) / 2 - 5
    ∧ (Even w →
        |((np_clip z (Int.fdiv (-(w : ℤ)) 2 + 5)
            (Int.fdiv (w : ℤ) 2 - 5) : ℤ) : ℚ)| ≤ (w : ℚ) / 2 - 5) := by
  have hW : (20 : ℤ) ≤ (w : ℤ) := by exact_mod_cast hw
  rw [Int.fdiv_eq_ediv _ (by norm_num), Int.fdiv_eq_ediv _ (by norm_num)]
  set q1 : ℤ := -(w : ℤ) / 2 with hq1
  set q2 : ℤ := (w : ℤ) / 2 with hq2
  have hb1 : 2 * q1 ≤ -(w : ℤ) ∧ -(w : ℤ) - 1 ≤ 2 * q1 := by
    constructor <;> omega
  have hb2 : 2 * q2 ≤ (w : ℤ) ∧ (w : ℤ) - 1 ≤ 2 * q2 := by
    constructor <;> omega
  have hlohi : q1 + 5 ≤ q2 - 5 := by omega
  have hcl1 : q1 + 5 ≤ np_clip z (q1 + 5) (q2 - 5) :=
    le_min hlohi (le_max_left _ _)
  have hcl2 : np_clip z (q1 + 5) (q2 - 5) ≤ q2 - 5 := min_le_left _ _
  have hql : ((q1 : ℚ) + 5) ≤ ((np_clip z (q1 + 5) (q2 - 5) : ℤ) : ℚ) := by
    exact_mod_cast hcl1
  have hqh : ((np_clip z (q1 + 5) (q2 - 5) : ℤ) : ℚ) ≤ (q2 : ℚ) - 5 := by
    exact_mod_cast hcl2
  have h2q1 : -(w : ℚ) - 1 ≤ 2 * (q1 : ℚ) := by exact_mod_cast hb1.2
  have h2q2 : 2 * (q2 : ℚ) ≤ (w : ℚ) := by exact_mod_cast hb2.1
  refine ⟨hcl1, hcl2, ?_, ?_⟩
  · rw [abs_le]
    constructor <;> linarith
  · intro hev
    obtain ⟨k, hk⟩ := hev
    have hk2 : (w : ℤ) = 2 * (k : ℤ) := by
      have : (w : ℤ) = (k : ℤ) + (k : ℤ) := by exact_mod_cast hk
      omega
    have hq2k : q2 = (k : ℤ) := by omega
    have hq1k : q1 = -(k : ℤ) := by omega
    have hwq : (w : ℚ) = 2 * (k : ℚ) := by exact_mod_cast hk2
    have hkq1 : (q1 : ℚ) = -(k : ℚ) := by exact_mod_cast hq1k
    have hkq2 : (q2 : ℚ) = (k : ℚ) := by exact_mod_cast hq2k
    rw [abs_le]
    constructor <;> linarith

/-- Claim C8 (amended): for every region with width and height at least 20
and every `max_variance`, each clipped offset lies in the integer interval
`[-w // 2 + 5, w // 2 - 5]` (Python floor division), so its magnitude is
at most `(w+1)/2 - 5` per axis; for even extents this is the claimed
`w/2 - 5` bound, but for odd extents the lower clip bound allows magnitude
`(w+1)/2 - 5`, half a unit beyond `w/2 - 5`, so the click can land inside
the 5-unit margin of the left/top edge (see the counterexample). -/
theorem claim_C8_amended (width height variance : ℕ) (zx zy : ℤ)
    (hw : 20 ≤ width) (hh : 20 ≤ height) :
    (Int.fdiv (-(width : ℤ)) 2 + 5
        ≤ (human_click_offset width height variance zx zy).1
      ∧ (human_click_offset width height variance zx zy).1
        ≤ Int.fdiv (width : ℤ) 2 - 5)
    ∧ (Int.fdiv (-(height : ℤ)) 2 + 5
        ≤ (human_click_offset width height variance zx zy).2
      ∧ (human_click_offset width height variance zx zy).2
        ≤ Int.fdiv (height : ℤ) 2 - 5)
    ∧ |(((human_click_offset width height variance zx zy).1 : ℤ) : ℚ)|
        ≤ ((width : ℚ) + 1) / 2 - 5
    ∧ |(((human_click_offset width height variance zx zy).2 : ℤ) : ℚ)|
        ≤ ((height : ℚ) + 1) / 2 - 5
    ∧ (Even width →
        |(((human_click_offset width height variance zx zy).1 : ℤ) : ℚ)|
          ≤ (width : ℚ) / 2 - 5)
    ∧ (Even height →
        |(((human_click_offset width height variance zx zy).2 : ℤ) : ℚ)|
          ≤ (height : ℚ) / 2 - 5) := by
  have hx := clip_axis_bounds width zx hw
  have hy := clip_axis_bounds height zy hh
  exact ⟨⟨hx.1, hx.2.1⟩, ⟨hy.1, hy.2.1⟩, hx.2.2.1, hy.2.2.1,
    hx.2.2.2, hy.2.2.2⟩

/-- Witness for the amended C8: for the 21 x 21 region and a far-negative
horizontal draw the clipped offset stays at or above the Python lower
bound, by applying `claim_C8_amended` at concrete inputs. -/
theorem claim_C8_amended_witness :
    Int.fdiv (-((21 : ℕ) : ℤ)) 2 + 5
        ≤ (human_click_offset 21 21 10 (-100) 0).1 :=
  (claim_C8_amended 21 21 10 (-100) 0 (by norm_num) (by norm_num)).1.1

lemma tail_append_drop {α : Type} (L M : List α) (h : L ≠ []) (n : ℕ) :
    (L.tail ++ M).drop n = (L ++ M).drop (n + 1) := by
  cases L with
  | nil => exact absurd rfl h
  | cons x xs => simp [List.drop_succ_cons]

lemma run_get_delay_count (cfg : SafetyConfig)
    (inputs : List (ℚ × ℚ × ℚ × String)) : ∀ tv : TimingVariation,
    (run_get_delay cfg inputs tv).action_count
      = tv.action_count + inputs.length := by
  induction inputs with
  | nil =>
    intro tv
    simp [run_get_delay]
  | cons p rest ih =>
    intro tv
    obtain ⟨now, u1, u2, a⟩ := p
    simp only [run_get_delay]
    rw [ih]
    have h : (get_delay cfg now u1 u2 a tv).2.action_count
        = tv.action_count + 1 := rfl
    rw [h, List.length_cons]
    omega

lemma full_log_length (cfg : SafetyConfig)
    (inputs : List (ℚ × ℚ × ℚ × String)) : ∀ tv : TimingVariation,
    (full_log cfg inputs tv).length = inputs.length := by
  induction inputs with
  | nil => intro tv; rfl
  | cons p rest ih =>
    intro tv
    obtain ⟨now, u1, u2, a⟩ := p
    simp only [full_log, List.length_cons, ih]

lemma run_get_delay_history (cfg : SafetyConfig)
    (inputs : List (ℚ × ℚ × ℚ × String)) : ∀ tv : TimingVariation,
    tv.action_history.length ≤ 100 →
    (run_get_delay cfg inputs tv).action_history
      = (tv.action_history ++ full_log cfg inputs tv).drop
          (tv.action_history.length + inputs.length - 100) := by
  induction inputs with
  | nil =>
    intro tv h
    simp only [run_get_delay, full_log, List.append_nil, List.length_nil,
      Nat.add_zero]
    rw [Nat.sub_eq_zero_of_le h, List.drop_zero]
  | cons p rest ih =>
    intro tv h
    obtain ⟨now, u1, u2, a⟩ := p
    set r : ActionRecord :=
      { time := now, type := a, delay := (get_delay cfg now u1 u2 a tv).1 }
      with hr
    have hrun : run_get_delay cfg ((now, u1, u2, a) :: rest) tv
        = run_get_delay cfg rest (get_delay cfg now u1 u2 a tv).2 := rfl
    have hlog : full_log cfg ((now, u1, u2, a) :: rest) tv
        = r :: full_log cfg rest (get_delay cfg now u1 u2 a tv).2 := rfl
    rw [hrun, hlog, List.length_cons]
    have hist1 : (get_delay cfg now u1 u2 a tv).2.action_history
        = if (tv.action_history ++ [r]).length > 100
          then (tv.action_history ++ [r]).tail
          else tv.action_history ++ [r] := rfl
    by_cases hlen : (tv.action_history ++ [r]).length > 100
    · have h100 : tv.action_history.length = 100 := by
        simp only [List.length_append, List.length_cons, List.length_nil] at hlen
        omega
      have hist2 : (get_delay cfg now u1 u2 a tv).2.action_history
          = (tv.action_history ++ [r]).tail := by
        rw [hist1, if_pos hlen]
      have htl : ((tv.action_history ++ [r]).tail).length = 100 := by
        simp only [List.length_tail, List.length_append, List.length_cons,
          List.length_nil]
        omega
      have hlen2 : (get_delay cfg now u1 u2 a tv).2.action_history.length
          ≤ 100 := by
        rw [hist2, htl]
      rw [ih _ hlen2, hist2, htl]
      have hidx : 100 + rest.length - 100 = rest.length := by omega
      rw [hidx, tail_append_drop _ _ (by simp)]
      have hidx2 : tv.action_history.length + (rest.length + 1) - 100
          = rest.length + 1 := by omega
      rw [hidx2, List.append_assoc, List.singleton_append]
    · have hist2 : (get_delay cfg now u1 u2 a tv).2.action_history
          = tv.action_history ++ [r] := by
        rw [hist1, if_neg hlen]
      have hlen2 : (get_delay cfg now u1 u2 a tv).2.action_history.length
          ≤ 100 := by
        rw [hist2]
        simp only [List.length_append, List.length_cons, List.length_nil]
        simp only [List.length_append, List.length_cons, List.length_nil] at hlen
        omega
      rw [ih _ hlen2, hist2]
      rw [List.append_assoc, List.singleton_append]
      congr 1
      simp only [List.length_append, List.length_cons, List.length_nil]
      omega

/-- Claim C6: starting from a fresh session state, after any sequence of
`get_delay` calls `action_history` is a fixed-size FIFO window of the most
recent records: its length is `min(action_count, 100)`, it never exceeds
100 entries (after 1000 calls it is exactly 100), and it equals the full
chronological log of all appended records with everything but the last 100
dropped — the oldest entry is evicted when the 101st is appended. -/
theorem claim_C6 (cfg : SafetyConfig) (t0 : ℚ)
    (inputs : List (ℚ × ℚ × ℚ × String)) :
    (run_get_delay cfg inputs (TimingVariation.init t0)).action_count
        = inputs.length
    ∧ (run_get_delay cfg inputs (TimingVariation.init t0)).action_history.length
        = min inputs.length 100
    ∧ (run_get_delay cfg inputs (TimingVariation.init t0)).action_history.length
        ≤ 100
    ∧ (run_get_delay cfg inputs (TimingVariation.init t0)).action_history
        = (full_log cfg inputs (TimingVariation.init t0)).drop
            (inputs.length - 100)
    ∧ (inputs.length = 1000 →
        (run_get_delay cfg inputs
            (TimingVariation.init t0)).action_history.length = 100) := by
  have hc := run_get_delay_count cfg inputs (TimingVariation.init t0)
  have hh := run_get_delay_history cfg inputs (TimingVariation.init t0)
    (by simp [TimingVariation.init])
  have hh' : (run_get_delay cfg inputs (TimingVariation.init t0)).action_history
      = (full_log cfg inputs (TimingVariation.init t0)).drop
          (inputs.length - 100) := by
    simpa [TimingVariation.init] using hh
  have hlen : (run_get_delay cfg inputs
      (TimingVariation.init t0)).action_history.length
      = min inputs.length 100 := by
    rw [hh', List.length_drop, full_log_length]
    omega
  refine ⟨by simpa [TimingVariation.init] using hc, hlen, ?_, hh', ?_⟩
  · rw [hlen]
    exact min_le_right _ _
  · intro h1000
    rw [hlen, h1000]
    decide

/-- Witness for C6: after 1000 `get_delay` calls the history holds exactly
100 records, by applying `claim_C6` to a concrete list of 1000 call
inputs. -/
theorem claim_C6_witness :
    (run_get_delay defaultConfig
        (List.replicate 1000 ((0 : ℚ), (0 : ℚ), (0 : ℚ), "battle"))
        (TimingVariation.init 0)).action_history.length = 100 :=
  (claim_C6 defaultConfig 0
    (List.replicate 1000 ((0 : ℚ), (0 : ℚ), (0 : ℚ), "battle"))).2.2.2.2
    (by rw [List.length_replicate])
